import Mathlib

/-!
Shallow embedding of `ssm_jax/hmm/models/gmm_diag_hmm.py`: a hidden Markov
model with diagonal-covariance Gaussian-mixture emissions, trained by EM with
conjugate priors.  Machine floats are modelled by real numbers; the log-space
quantities of the E-step are modelled by extended reals so that
`log 0 = -infinity` behaves as in the source (`jnp.log(0.) = -inf`).

Indices: `K` = number of hidden states, `M` = number of mixture components,
`D` = emission dimension, `T` = sequence length.
-/

namespace GMMDiagHMM

open scoped BigOperators

/-- Embedding of `jnp.log` on non-negative floats: `log 0 = -inf`, positive reals map to
their real logarithm.  (Negative arguments give NaN in the source; they are
mapped to the same bottom junk value here and never arise in the claims.) -/
noncomputable def logE (x : ℝ) : EReal := if x ≤ 0 then ⊥ else ((Real.log x : ℝ) : EReal)

/-- Embedding of `jnp.exp` on extended reals: `exp (-inf) = 0`; finite values map to the
real exponential.  `⊤` never arises in the pipeline (it is sent to junk 0). -/
noncomputable def expE (x : EReal) : ℝ := if x = ⊥ then 0 else if x = ⊤ then 0 else Real.exp x.toReal

/-- Embedding of `jax.scipy.special.logsumexp` along the component axis. -/
noncomputable def logsumexpE {M : ℕ} (l : Fin M → EReal) : EReal := logE (∑ m, expE (l m))

/-- Log-density of `tfd.MultivariateNormalDiag(loc=mu, scale_diag=sigma)` at `x`:
the sum over dimensions of the univariate Gaussian log-densities. -/
noncomputable def mvnDiagLogProb {D : ℕ} (mu sigma x : Fin D → ℝ) : ℝ :=
  ∑ n, (-((x n - mu n) ^ 2) / (2 * (sigma n) ^ 2) - Real.log (sigma n) - Real.log (2 * Real.pi) / 2)

/-- The learnable emission parameters of `GaussianMixtureDiagHMM`
(per state: mixture weights, per-component means and diagonal scales). -/
structure Params (K M D : ℕ) where
  mixture_weights : Fin K → Fin M → ℝ
  means : Fin K → Fin M → Fin D → ℝ
  cov_diag_factors : Fin K → Fin M → Fin D → ℝ

/-- The per-component log-probabilities formed inside `prob_fn`
(source lines 182-185): Gaussian log-density plus log mixture weight,
for one state `k` and observation `x`. -/
noncomputable def logprobs {K M D : ℕ} (p : Params K M D) (x : Fin D → ℝ) (k : Fin K) :
    Fin M → EReal :=
  fun m => ((mvnDiagLogProb (p.means k m) (p.cov_diag_factors k m) x : ℝ) : EReal)
    + logE (p.mixture_weights k m)

/-- Embedding of `prob_fn` (source lines 181-187): normalized component responsibilities
for observation `x`, obtained by subtracting the log-sum-exp of the
per-component log-probabilities and exponentiating. -/
noncomputable def prob_fn {K M D : ℕ} (p : Params K M D) (x : Fin D → ℝ) :
    Fin K → Fin M → ℝ :=
  fun k m => expE (logprobs p x k m - logsumexpE (logprobs p x k))

/-- Embedding of `GMMDiagHMMSuffStats` (source lines 20-28): the sufficient-statistics
record produced by the E-step for one sequence. -/
@[ext]
structure SuffStats (K M D : ℕ) where
  marginal_loglik : ℝ
  initial_probs : Fin K → ℝ
  trans_probs : Fin K → Fin K → ℝ
  N : Fin K → Fin M → ℝ
  Sx : Fin K → Fin M → Fin D → ℝ
  SxxT : Fin K → Fin M → Fin D → ℝ

/-- Output contract of the external smoother `hmm_smoother`
(`ssm_jax.hmm.inference`, an external collaborator): smoothed state-occupancy
probabilities per time step and the sequence marginal log-likelihood. -/
structure SmootherOut (T K : ℕ) where
  smoothed_probs : Fin T → Fin K → ℝ
  marginal_loglik : ℝ

/-- Embedding of `_single_e_step` (source lines 171-201), parametrized by the external
collaborators `hmm_smoother` and `compute_transition_probs`
(`ssm_jax.hmm.inference`, outside this file's source).  It computes the
joint weights `N[t,k,m] = smoothed_probs[t,k] * prob_denses[t,k,m]` and the
accumulated statistics via the three einsums of lines 190-193. -/
noncomputable def single_e_step {K M D T : ℕ}
    (smoother : (Fin T → Fin D → ℝ) → SmootherOut T K)
    (transP : SmootherOut T K → Fin K → Fin K → ℝ)
    (p : Params K M D) (emissions : Fin T → Fin D → ℝ) : SuffStats K M D :=
  let post := smoother emissions
  let prob_denses : Fin T → Fin K → Fin M → ℝ := fun t => prob_fn p (emissions t)
  let Njoint : Fin T → Fin K → Fin M → ℝ :=
    fun t k m => post.smoothed_probs t k * prob_denses t k m
  { marginal_loglik := post.marginal_loglik
    initial_probs := fun k => if h : 0 < T then post.smoothed_probs ⟨0, h⟩ k else 0
    trans_probs := transP post
    N := fun k m => ∑ t, Njoint t k m
    Sx := fun k m n => ∑ t, Njoint t k m * emissions t n
    SxxT := fun k m n => ∑ t, Njoint t k m * emissions t n * emissions t n }

/-- Embedding of `e_step` (source lines 169-204): the single-sequence E-step mapped over
the batch (`vmap(_single_e_step)`), one record per sequence, order-preserving. -/
noncomputable def e_step {K M D T : ℕ}
    (smoother : (Fin T → Fin D → ℝ) → SmootherOut T K)
    (transP : SmootherOut T K → Fin K → Fin K → ℝ)
    (p : Params K M D) (batch : List (Fin T → Fin D → ℝ)) : List (SuffStats K M D) :=
  batch.map (single_e_step smoother transP p)

/-- Embedding of `tree_map(partial(jnp.sum, axis=0), batch_posteriors)` (source line 208):
elementwise sum of the per-sequence statistics records over the batch axis. -/
noncomputable def sumStats {K M D : ℕ} (l : List (SuffStats K M D)) : SuffStats K M D where
  marginal_loglik := (l.map fun s => s.marginal_loglik).sum
  initial_probs := fun k => (l.map fun s => s.initial_probs k).sum
  trans_probs := fun k j => (l.map fun s => s.trans_probs k j).sum
  N := fun k m => (l.map fun s => s.N k m).sum
  Sx := fun k m n => (l.map fun s => s.Sx k m n).sum
  SxxT := fun k m n => (l.map fun s => s.SxxT k m n).sum

/-- Parameters of a (scalar) Normal-Inverse-Gamma distribution, as held by
`ssm_jax.distributions.NormalInverseGamma`: location, mean-concentration,
shape and scale.  The source applies it elementwise over the emission
dimension, so the scalar case suffices. -/
structure NIGParams where
  loc : ℝ
  mean_concentration : ℝ
  shape : ℝ
  scale : ℝ

/-- Modelled from the spec: `ssm_jax.distributions.nig_posterior_update` is not
under the sources; per spec 4.1, the posterior concentration is the prior
concentration plus `N`, the posterior location is the precision-weighted
average of the prior location and the empirical mean `Sx/N`, the shape grows
by `N/2`, and the scale absorbs the sum-of-squared-deviations term plus a
cross term in the prior/empirical mean disagreement weighted by the harmonic
combination of the two concentrations; `N = 0` falls back to the prior
unchanged. -/
noncomputable def nig_posterior_update (p : NIGParams) (Sx SxxT N : ℝ) : NIGParams :=
  if N = 0 then p
  else
    { loc := (p.mean_concentration * p.loc + Sx) / (p.mean_concentration + N)
      mean_concentration := p.mean_concentration + N
      shape := p.shape + N / 2
      scale := p.scale + (SxxT - Sx ^ 2 / N) / 2
        + (p.mean_concentration * N / (p.mean_concentration + N)) * (Sx / N - p.loc) ^ 2 / 2 }

/-- Modelled from the spec: `NormalInverseGamma.mode` is not under the sources;
per spec 4.1 it returns the pair `(variance_mode, mean_mode)` with
`variance_mode = scale / (shape + 1)` and `mean_mode = loc`. -/
noncomputable def nigMode (p : NIGParams) : ℝ × ℝ := (p.scale / (p.shape + 1), p.loc)

/-- Mode of `tfd.Dirichlet(alpha)`: the usual Dirichlet-mode formula
`(alpha_c - 1) / (sum alpha - M)`. -/
noncomputable def dirichletMode {M : ℕ} (α : Fin M → ℝ) : Fin M → ℝ :=
  fun c => (α c - 1) / ((∑ j, α j) - M)

/-- The frozen prior hyperparameters of the emission model, after
construction-time expansion (source lines 76-114): mixture-weight Dirichlet
concentration, and per-component NIG hyperparameters. -/
structure Priors (M D : ℕ) where
  mixture_weights_concentration : Fin M → ℝ
  prior_mean : Fin M → Fin D → ℝ
  prior_mean_concentration : Fin M → ℝ
  prior_shape : Fin M → ℝ
  prior_scale : Fin M → Fin D → ℝ

/-- Embedding of `_single_m_step` (source lines 210-228): for one state, given the summed
statistics `(Sx, SxxT, N)`, returns the new mixture weights (Dirichlet
posterior mode), diagonal covariance factors and means (NIG posterior mode,
elementwise over the emission dimension). -/
noncomputable def single_m_step {M D : ℕ} (pr : Priors M D)
    (Sx SxxT : Fin M → Fin D → ℝ) (N : Fin M → ℝ) :
    (Fin M → ℝ) × (Fin M → Fin D → ℝ) × (Fin M → Fin D → ℝ) :=
  let nu_post : Fin M → ℝ := fun m => pr.mixture_weights_concentration m + N m
  let mixture_weights := dirichletMode nu_post
  let post : Fin M → Fin D → NIGParams := fun m n =>
    nig_posterior_update
      ⟨pr.prior_mean m n, pr.prior_mean_concentration m, pr.prior_shape m, pr.prior_scale m n⟩
      (Sx m n) (SxxT m n) (N m)
  (mixture_weights, fun m n => (nigMode (post m n)).1, fun m n => (nigMode (post m n)).2)

/-- The triple of new emission-parameter arrays written back by the M-step
(source lines 235-237): mixture weights, diagonal covariance factors, means. -/
structure MStepOut (K M D : ℕ) where
  mixture_weights : Fin K → Fin M → ℝ
  cov_diag_factors : Fin K → Fin M → Fin D → ℝ
  means : Fin K → Fin M → Fin D → ℝ

/-- The per-state M-step applied to one already-summed statistics record
(the `vmap(_single_m_step)` of source lines 233-234). -/
noncomputable def m_step_core {K M D : ℕ} (pr : Priors M D) (stats : SuffStats K M D) :
    MStepOut K M D where
  mixture_weights := fun k => (single_m_step pr (stats.Sx k) (stats.SxxT k) (stats.N k)).1
  cov_diag_factors := fun k => (single_m_step pr (stats.Sx k) (stats.SxxT k) (stats.N k)).2.1
  means := fun k => (single_m_step pr (stats.Sx k) (stats.SxxT k) (stats.N k)).2.2

/-- Embedding of `_m_step_emissions` (source lines 206-237): receives the batch of
per-sequence statistics records, sums them across the batch axis itself
(line 208), and applies the per-state update to the summed statistics. -/
noncomputable def m_step_emissions {K M D : ℕ} (pr : Priors M D)
    (batch_posteriors : List (SuffStats K M D)) : MStepOut K M D :=
  m_step_core pr (sumStats batch_posteriors)

/-- A prior-hyperparameter argument of the constructor: either a Python float
(broadcast at construction) or an array with an explicit shape carrying flat
data (row-major). -/
inductive HyperArg where
  | scalar (v : ℝ)
  | array (shape : List ℕ) (data : List ℝ)

/-- Expansion of a hyperparameter expected to have shape `(M,)`
(source pattern at lines 76-81: broadcast a float, otherwise assert the
shape and fail construction on mismatch). -/
noncomputable def expandVec (M : ℕ) : HyperArg → Option (Fin M → ℝ)
  | .scalar v => some fun _ => v
  | .array shape data => if shape = [M] then some (fun i => data.getD i 0) else none

/-- Expansion of a hyperparameter expected to have shape `(M, D)`
(source pattern at lines 86-90). -/
noncomputable def expandMat (M D : ℕ) : HyperArg → Option (Fin M → Fin D → ℝ)
  | .scalar v => some fun _ _ => v
  | .array shape data =>
      if shape = [M, D] then some (fun i j => data.getD (i * D + j) 0) else none

/-- Embedding of the prior-hyperparameter part of `GaussianMixtureDiagHMM.__init__`
(source lines 76-114): each argument is broadcast from a scalar or
shape-checked, in source order; any failed check aborts construction with no
partially constructed model. -/
noncomputable def initPriors (M D : ℕ)
    (weights_concentration prior_mean prior_mean_concentration prior_shape prior_scale :
      HyperArg) : Option (Priors M D) := do
  let wc ← expandVec M weights_concentration
  let pm ← expandMat M D prior_mean
  let mc ← expandVec M prior_mean_concentration
  let sh ← expandVec M prior_shape
  let sc ← expandMat M D prior_scale
  some ⟨wc, pm, mc, sh, sc⟩

/-! ### Concrete fixtures used to instantiate the theorems below -/

/-- A one-state, one-component, one-dimensional model: weight `1`, mean `0`,
diagonal scale `1`. -/
noncomputable def unitParams : Params 1 1 1 :=
  ⟨fun _ _ => 1, fun _ _ _ => 0, fun _ _ _ => 1⟩

/-- A one-state, two-component model whose second mixture weight is zero. -/
noncomputable def zwParams : Params 1 2 1 :=
  ⟨fun _ m => if m = 0 then 1 else 0, fun _ _ _ => 0, fun _ _ _ => 1⟩

/-- A trivial smoother output for a single state over one time step. -/
noncomputable def constSmoother1 : (Fin 1 → Fin 1 → ℝ) → SmootherOut 1 1 :=
  fun _ => ⟨fun _ _ => 1, 0⟩

/-- Concrete priors: mixture-weight concentration `2`, NIG prior location `0`,
mean-concentration `1`, shape `1`, scale `1` (the priors of the spec's
concrete scenario). -/
noncomputable def unitPriors : Priors 1 1 :=
  ⟨fun _ => 2, fun _ _ => 0, fun _ => 1, fun _ => 1, fun _ _ => 1⟩

/-- An all-zero statistics record. -/
noncomputable def zeroStats : SuffStats 1 1 1 :=
  ⟨0, fun _ => 0, fun _ _ => 0, fun _ _ => 0, fun _ _ _ => 0, fun _ _ _ => 0⟩

/-- A statistics record with `N = Sx = SxxT = 1`. -/
noncomputable def oneStats : SuffStats 1 1 1 :=
  ⟨0, fun _ => 0, fun _ _ => 0, fun _ _ => 1, fun _ _ _ => 1, fun _ _ _ => 1⟩

/-- Modelled from the spec: the external forward-backward smoother
(`hmm_smoother`, not under the sources) applied to a model with a single
hidden state, for which the smoothed state-occupancy probabilities are
identically `1` (spec section 6 contract). -/
noncomputable def singleStateSmoother3 : (Fin 3 → Fin 1 → ℝ) → SmootherOut 3 1 :=
  fun _ => ⟨fun _ _ => 1, 0⟩

/-- The single observation sequence `[1.0, 1.0, 1.0]` of the spec's concrete
scenario. -/
noncomputable def scenarioEmissions : Fin 3 → Fin 1 → ℝ := fun _ _ => 1

/-- The statistics the E-step produces for the spec's concrete scenario. -/
noncomputable def scenarioStats : SuffStats 1 1 1 :=
  single_e_step singleStateSmoother3 (fun _ _ _ => 0) unitParams scenarioEmissions

/-! ### Basic facts about the extended-real log/exp pipeline -/

lemma expE_bot : expE ⊥ = 0 := by simp [expE]

lemma expE_coe (r : ℝ) : expE ((r : ℝ) : EReal) = Real.exp r := by
  simp [expE, EReal.coe_ne_bot, EReal.coe_ne_top, EReal.toReal_coe]

lemma expE_nonneg (x : EReal) : 0 ≤ expE x := by
  unfold expE
  split
  · exact le_refl 0
  · split
    · exact le_refl 0
    · exact (Real.exp_pos _).le

lemma logE_of_pos {x : ℝ} (hx : 0 < x) : logE x = ((Real.log x : ℝ) : EReal) := by
  simp [logE, not_le.mpr hx]

lemma logE_of_nonpos {x : ℝ} (hx : x ≤ 0) : logE x = ⊥ := by
  simp [logE, hx]

lemma logprobs_of_pos {K M D : ℕ} (p : Params K M D) (x : Fin D → ℝ) (k : Fin K) (m : Fin M)
    (hw : 0 < p.mixture_weights k m) :
    logprobs p x k m =
      ((mvnDiagLogProb (p.means k m) (p.cov_diag_factors k m) x
        + Real.log (p.mixture_weights k m) : ℝ) : EReal) := by
  rw [logprobs, logE_of_pos hw, ← EReal.coe_add]

lemma logprobs_of_zero {K M D : ℕ} (p : Params K M D) (x : Fin D → ℝ) (k : Fin K) (m : Fin M)
    (hw : p.mixture_weights k m = 0) : logprobs p x k m = ⊥ := by
  rw [logprobs, logE_of_nonpos hw.le, EReal.add_bot]

/-- With non-negative weights, one of them positive, the sum of exponentiated
per-component log-probabilities is positive. -/
lemma sum_expE_logprobs_pos {K M D : ℕ} (p : Params K M D) (x : Fin D → ℝ) (k : Fin K)
    (hex : ∃ m, 0 < p.mixture_weights k m) :
    0 < ∑ m, expE (logprobs p x k m) := by
  obtain ⟨m0, hm0⟩ := hex
  have h0 : 0 < expE (logprobs p x k m0) := by
    rw [logprobs_of_pos p x k m0 hm0, expE_coe]
    exact Real.exp_pos _
  exact Finset.sum_pos' (fun m _ => expE_nonneg _) ⟨m0, Finset.mem_univ m0, h0⟩

/-- Each normalized responsibility equals the exponentiated log-probability
divided by the total, provided the weights are non-negative with at least one
positive. -/
lemma prob_fn_eq_div {K M D : ℕ} (p : Params K M D) (x : Fin D → ℝ) (k : Fin K) (m : Fin M)
    (hw : ∀ m', 0 ≤ p.mixture_weights k m')
    (hex : ∃ m', 0 < p.mixture_weights k m') :
    prob_fn p x k m = expE (logprobs p x k m) / ∑ m', expE (logprobs p x k m') := by
  set S : ℝ := ∑ m', expE (logprobs p x k m') with hS
  have hSpos : 0 < S := sum_expE_logprobs_pos p x k hex
  have hlse : logsumexpE (logprobs p x k) = ((Real.log S : ℝ) : EReal) := by
    rw [logsumexpE, ← hS, logE_of_pos hSpos]
  rcases lt_or_eq_of_le (hw m) with hm | hm
  · rw [prob_fn, hlse, logprobs_of_pos p x k m hm, ← EReal.coe_sub, expE_coe, expE_coe,
      Real.exp_sub, Real.exp_log hSpos]
  · rw [prob_fn, hlse, logprobs_of_zero p x k m hm.symm, EReal.bot_sub, expE_bot, zero_div]

/-- The responsibility vector over components sums to one. -/
lemma sum_prob_fn {K M D : ℕ} (p : Params K M D) (x : Fin D → ℝ) (k : Fin K)
    (hw : ∀ m', 0 ≤ p.mixture_weights k m')
    (hex : ∃ m', 0 < p.mixture_weights k m') :
    ∑ m, prob_fn p x k m = 1 := by
  have hSpos := sum_expE_logprobs_pos p x k hex
  calc ∑ m, prob_fn p x k m
      = ∑ m, expE (logprobs p x k m) / ∑ m', expE (logprobs p x k m') := by
        exact Finset.sum_congr rfl fun m _ => prob_fn_eq_div p x k m hw hex
    _ = (∑ m, expE (logprobs p x k m)) / ∑ m', expE (logprobs p x k m') := by
        rw [Finset.sum_div]
    _ = 1 := div_self hSpos.ne'

/-- A zero-weight component gets responsibility exactly zero. -/
lemma prob_fn_zero_weight {K M D : ℕ} (p : Params K M D) (x : Fin D → ℝ) (k : Fin K) (m : Fin M)
    (hw : ∀ m', 0 ≤ p.mixture_weights k m')
    (hex : ∃ m', 0 < p.mixture_weights k m')
    (hm : p.mixture_weights k m = 0) :
    prob_fn p x k m = 0 := by
  rw [prob_fn_eq_div p x k m hw hex, logprobs_of_zero p x k m hm, expE_bot, zero_div]

/-! ### Claim theorems -/

/-- C1: for every emission sequence, the E-step computes the joint weight
`N[t,k,m]` as the product of the smoothed state probability at `(t,k)` and
the normalized component responsibility at `(t,k,m)`, and returns
`N[k,m] = sum_t N[t,k,m]`, `Sx[k,m,n] = sum_t N[t,k,m] * emission[t,n]`, and
`SxxT[k,m,n] = sum_t N[t,k,m] * emission[t,n]^2` (elementwise square). -/
theorem gmm_e_step_joint_weights {K M D T : ℕ}
    (smoother : (Fin T → Fin D → ℝ) → SmootherOut T K)
    (transP : SmootherOut T K → Fin K → Fin K → ℝ)
    (p : Params K M D) (e : Fin T → Fin D → ℝ) :
    (∀ k m, (single_e_step smoother transP p e).N k m =
      ∑ t, (smoother e).smoothed_probs t k * prob_fn p (e t) k m) ∧
    (∀ k m n, (single_e_step smoother transP p e).Sx k m n =
      ∑ t, ((smoother e).smoothed_probs t k * prob_fn p (e t) k m) * e t n) ∧
    (∀ k m n, (single_e_step smoother transP p e).SxxT k m n =
      ∑ t, ((smoother e).smoothed_probs t k * prob_fn p (e t) k m) * (e t n) ^ 2) := by
  refine ⟨fun k m => rfl, fun k m n => rfl, fun k m n => ?_⟩
  simp only [single_e_step]
  exact Finset.sum_congr rfl fun t _ => by ring

/-- C4: the E-step maps over the batch one sequence at a time,
order-preserving with no cross-sequence coupling, and the summed `N`, `Sx`,
`SxxT` statistics are additive across batches: the statistics of a
concatenated batch are the elementwise sums of the statistics of its parts. -/
theorem gmm_e_step_additivity {K M D T : ℕ}
    (smoother : (Fin T → Fin D → ℝ) → SmootherOut T K)
    (transP : SmootherOut T K → Fin K → Fin K → ℝ)
    (p : Params K M D) (A B : List (Fin T → Fin D → ℝ)) :
    e_step smoother transP p (A ++ B) =
      e_step smoother transP p A ++ e_step smoother transP p B ∧
    (∀ k m, (sumStats (e_step smoother transP p (A ++ B))).N k m =
      (sumStats (e_step smoother transP p A)).N k m +
      (sumStats (e_step smoother transP p B)).N k m) ∧
    (∀ k m n, (sumStats (e_step smoother transP p (A ++ B))).Sx k m n =
      (sumStats (e_step smoother transP p A)).Sx k m n +
      (sumStats (e_step smoother transP p B)).Sx k m n) ∧
    (∀ k m n, (sumStats (e_step smoother transP p (A ++ B))).SxxT k m n =
      (sumStats (e_step smoother transP p A)).SxxT k m n +
      (sumStats (e_step smoother transP p B)).SxxT k m n) := by
  refine ⟨List.map_append _ A B, fun k m => ?_, fun k m n => ?_, fun k m n => ?_⟩ <;>
    simp [sumStats, e_step]

/-- C5: for every emission, time step and state, the component
responsibilities are computed by subtracting the log-sum-exp of the
per-component log-probabilities before exponentiating, and the resulting
responsibility vector sums to one (exactly, in real arithmetic), provided
the state's mixture weights are non-negative with at least one positive. -/
theorem gmm_responsibility_normalized {K M D : ℕ} (p : Params K M D) (x : Fin D → ℝ) (k : Fin K)
    (hw : ∀ m', 0 ≤ p.mixture_weights k m')
    (hex : ∃ m', 0 < p.mixture_weights k m') :
    (∀ m, prob_fn p x k m = expE (logprobs p x k m - logsumexpE (logprobs p x k))) ∧
    ∑ m, prob_fn p x k m = 1 :=
  ⟨fun _ => rfl, sum_prob_fn p x k hw hex⟩

/-- Witness for C5 at the concrete one-component model and observation `0`. -/
theorem gmm_responsibility_normalized_witness :
    ∑ m, prob_fn unitParams (fun _ => (0 : ℝ)) 0 m = 1 :=
  (gmm_responsibility_normalized unitParams (fun _ => (0 : ℝ)) 0
    (fun _ => by simp [unitParams]) ⟨0, by simp [unitParams]⟩).2

/-- C10: a mixture component with weight zero (in a state that also has a
positive weight) receives responsibility exactly `0` for every observation —
`log 0 = -infinity` is mapped by the log-sum-exp normalization to
responsibility `0`, not NaN — so that component contributes exactly `0` to
the accumulated `N`, `Sx` and `SxxT` statistics. -/
theorem gmm_zero_weight_component {K M D T : ℕ}
    (smoother : (Fin T → Fin D → ℝ) → SmootherOut T K)
    (transP : SmootherOut T K → Fin K → Fin K → ℝ)
    (p : Params K M D) (e : Fin T → Fin D → ℝ) (k : Fin K) (m : Fin M)
    (hw : ∀ m', 0 ≤ p.mixture_weights k m')
    (hex : ∃ m', 0 < p.mixture_weights k m')
    (hm : p.mixture_weights k m = 0) :
    (∀ x, prob_fn p x k m = 0) ∧
    (single_e_step smoother transP p e).N k m = 0 ∧
    (∀ n, (single_e_step smoother transP p e).Sx k m n = 0) ∧
    (∀ n, (single_e_step smoother transP p e).SxxT k m n = 0) := by
  have hz : ∀ x, prob_fn p x k m = 0 := fun x => prob_fn_zero_weight p x k m hw hex hm
  refine ⟨hz, ?_, fun n => ?_, fun n => ?_⟩ <;>
    · simp only [single_e_step]
      exact Finset.sum_eq_zero fun t _ => by simp [hz (e t)]

/-- Witness for C10 at a two-component model whose second weight is zero. -/
theorem gmm_zero_weight_component_witness :
    (single_e_step constSmoother1 (fun _ _ _ => (0 : ℝ)) zwParams
      (fun _ _ => (0 : ℝ))).N 0 1 = 0 :=
  (gmm_zero_weight_component constSmoother1 (fun _ _ _ => (0 : ℝ)) zwParams
    (fun _ _ => (0 : ℝ)) 0 1
    (fun m' => by fin_cases m' <;> simp [zwParams])
    ⟨0, by simp [zwParams]⟩
    (by simp [zwParams])).2.1

/-- C2: for every state, the M-step sets the new mixture weights to the mode
of the Dirichlet with concentration prior-concentration plus `N`, and for
non-negative statistics and prior concentration greater than one elementwise
the resulting weight vector lies on the simplex. -/
theorem gmm_m_step_mixture_weights_mode {K M D : ℕ} (pr : Priors M D) (stats : SuffStats K M D)
    (k : Fin K) (hM : 0 < M)
    (hconc : ∀ m, 1 < pr.mixture_weights_concentration m)
    (hN : ∀ m, 0 ≤ stats.N k m) :
    (m_step_core pr stats).mixture_weights k =
      dirichletMode (fun m => pr.mixture_weights_concentration m + stats.N k m) ∧
    (∀ m, 0 ≤ (m_step_core pr stats).mixture_weights k m) ∧
    ∑ m, (m_step_core pr stats).mixture_weights k m = 1 := by
  set α : Fin M → ℝ := fun m => pr.mixture_weights_concentration m + stats.N k m with hα_def
  have hα : ∀ m, 1 < α m := fun m =>
    lt_of_lt_of_le (hconc m) (le_add_of_nonneg_right (hN m))
  have hne : (Finset.univ : Finset (Fin M)).Nonempty :=
    Finset.univ_nonempty_iff.mpr (Fin.pos_iff_nonempty.mp hM)
  have hsum : (∑ j, α j) - (M : ℝ) = ∑ j, (α j - 1) := by
    rw [Finset.sum_sub_distrib]
    simp
  have hpos : 0 < ∑ j, (α j - 1) :=
    Finset.sum_pos (fun j _ => sub_pos.mpr (hα j)) hne
  have hmw : (m_step_core pr stats).mixture_weights k = dirichletMode α := rfl
  refine ⟨hmw, fun m => ?_, ?_⟩
  · rw [hmw]
    unfold dirichletMode
    rw [hsum]
    exact div_nonneg (sub_nonneg.mpr (hα m).le) hpos.le
  · rw [hmw]
    unfold dirichletMode
    rw [hsum, ← Finset.sum_div]
    exact div_self hpos.ne'

/-- Witness for C2 at the concrete one-component priors with concentration 2
and zero statistics. -/
theorem gmm_m_step_mixture_weights_mode_witness :
    ∑ m, (m_step_core unitPriors zeroStats).mixture_weights 0 m = 1 :=
  (gmm_m_step_mixture_weights_mode unitPriors zeroStats 0 (by norm_num)
    (fun _ => by norm_num [unitPriors]) (fun _ => by simp [zeroStats])).2.2

/-- C3: a (state, component) pair with summed statistics `N = 0` (hence
`Sx = 0` and `SxxT = 0`) falls back exactly to the prior's mode in the
M-step: the new mean is the prior location and the new diagonal variance is
prior scale divided by prior shape plus one; no error or non-finite value
arises. -/
theorem gmm_zero_count_fallback {K M D : ℕ} (pr : Priors M D) (stats : SuffStats K M D)
    (k : Fin K) (m : Fin M)
    (hN : stats.N k m = 0) (hSx : ∀ n, stats.Sx k m n = 0)
    (hSxxT : ∀ n, stats.SxxT k m n = 0) :
    (∀ n, (m_step_core pr stats).means k m n = pr.prior_mean m n) ∧
    (∀ n, (m_step_core pr stats).cov_diag_factors k m n =
      pr.prior_scale m n / (pr.prior_shape m + 1)) := by
  constructor <;> intro n <;>
    simp [m_step_core, single_m_step, nig_posterior_update, nigMode, hN]

/-- Witness for C3 at the concrete priors and the all-zero statistics record. -/
theorem gmm_zero_count_fallback_witness :
    (m_step_core unitPriors zeroStats).means 0 0 0 = unitPriors.prior_mean 0 0 ∧
    (m_step_core unitPriors zeroStats).cov_diag_factors 0 0 0 =
      unitPriors.prior_scale 0 0 / (unitPriors.prior_shape 0 + 1) :=
  ⟨(gmm_zero_count_fallback unitPriors zeroStats 0 0 rfl (fun _ => rfl) (fun _ => rfl)).1 0,
   (gmm_zero_count_fallback unitPriors zeroStats 0 0 rfl (fun _ => rfl) (fun _ => rfl)).2 0⟩

/-- C6 counterexample: the M-step entry point does sum across sequences
itself.  On the concrete two-record batch `[oneStats, oneStats]` its output
equals the core update applied to the internally summed statistics
(posterior mean `2/3`), and differs from its output on the single-record
batch `[oneStats]` (posterior mean `1/2`) — so the summation across the
batch happens inside the updater, not in the caller. -/
theorem gmm_m_step_sums_internally_counterexample :
    m_step_emissions unitPriors [oneStats, oneStats] =
      m_step_core unitPriors (sumStats [oneStats, oneStats]) ∧
    (m_step_emissions unitPriors [oneStats, oneStats]).means 0 0 0 = 2 / 3 ∧
    (m_step_emissions unitPriors [oneStats]).means 0 0 0 = 1 / 2 ∧
    (m_step_emissions unitPriors [oneStats, oneStats]).means 0 0 0 ≠
      (m_step_emissions unitPriors [oneStats]).means 0 0 0 := by
  have h2 : (m_step_emissions unitPriors [oneStats, oneStats]).means 0 0 0 = 2 / 3 := by
    norm_num [m_step_emissions, m_step_core, single_m_step, sumStats,
      nig_posterior_update, nigMode, unitPriors, oneStats]
  have h1 : (m_step_emissions unitPriors [oneStats]).means 0 0 0 = 1 / 2 := by
    norm_num [m_step_emissions, m_step_core, single_m_step, sumStats,
      nig_posterior_update, nigMode, unitPriors, oneStats]
  exact ⟨rfl, h2, h1, by rw [h2, h1]; norm_num⟩

/-- C6 amended: the M-step updater receives the batch of per-sequence
statistics records and performs the summation across sequences itself as its
first operation, applying the closed-form update to the elementwise sums;
only the inner per-state update sees pre-summed statistics. -/
theorem gmm_m_step_updater_sums_batch {K M D : ℕ} (pr : Priors M D)
    (s1 s2 : SuffStats K M D) :
    m_step_emissions pr [s1, s2] = m_step_core pr
      { marginal_loglik := s1.marginal_loglik + s2.marginal_loglik
        initial_probs := fun k => s1.initial_probs k + s2.initial_probs k
        trans_probs := fun k j => s1.trans_probs k j + s2.trans_probs k j
        N := fun k m => s1.N k m + s2.N k m
        Sx := fun k m n => s1.Sx k m n + s2.Sx k m n
        SxxT := fun k m n => s1.SxxT k m n + s2.SxxT k m n } := by
  unfold m_step_emissions
  congr 1
  ext <;> simp [sumStats]

/-- C8: in the spec's concrete scenario (one state, one component, dimension
one, observations `[1,1,1]`, NIG prior location `0`, mean-concentration `1`,
shape `1`, scale `1`) the E-step returns `N = 3`, `Sx = 3`, `SxxT = 3`, and
the M-step's posterior mean mode is `(1*0 + 3)/(1 + 3) = 3/4`, the
precision-weighted blend of prior mean `0` (weight `1`) and empirical mean
`1` (weight `3`). -/
theorem gmm_concrete_scenario :
    scenarioStats.N 0 0 = 3 ∧ scenarioStats.Sx 0 0 0 = 3 ∧ scenarioStats.SxxT 0 0 0 = 3 ∧
    (m_step_emissions unitPriors [scenarioStats]).means 0 0 0 = (1 * 0 + 3) / (1 + 3) ∧
    (m_step_emissions unitPriors [scenarioStats]).means 0 0 0 = 3 / 4 := by
  have hresp : ∀ x : Fin 1 → ℝ, prob_fn unitParams x 0 0 = 1 := by
    intro x
    have h := sum_prob_fn unitParams x 0 (fun _ => by simp [unitParams])
      ⟨0, by simp [unitParams]⟩
    simpa [Fin.sum_univ_one] using h
  have hN : scenarioStats.N 0 0 = 3 := by
    norm_num [scenarioStats, single_e_step, singleStateSmoother3, scenarioEmissions, hresp,
      Fin.sum_univ_three]
  have hSx : scenarioStats.Sx 0 0 0 = 3 := by
    norm_num [scenarioStats, single_e_step, singleStateSmoother3, scenarioEmissions, hresp,
      Fin.sum_univ_three]
  have hSxxT : scenarioStats.SxxT 0 0 0 = 3 := by
    norm_num [scenarioStats, single_e_step, singleStateSmoother3, scenarioEmissions, hresp,
      Fin.sum_univ_three]
  have hmean : (m_step_emissions unitPriors [scenarioStats]).means 0 0 0 = 3 / 4 := by
    norm_num [m_step_emissions, m_step_core, single_m_step, sumStats,
      nig_posterior_update, nigMode, unitPriors, hN, hSx, hSxxT]
  exact ⟨hN, hSx, hSxxT, by rw [hmean]; norm_num, hmean⟩

/-- C9: a prior-hyperparameter argument passed as an array whose shape is not
exactly `(num_components,)` (respectively `(num_components, emission_dim)`
for the prior mean and scale) makes construction fail with no partially
constructed model, whichever position it occupies; all-scalar arguments are
broadcast to the expected shapes and construction succeeds. -/
theorem gmm_constructor_shape_check (Mc Dm : ℕ) (a1 a2 a3 a4 a5 : HyperArg) :
    (∀ sh data, sh ≠ [Mc] →
      initPriors Mc Dm (.array sh data) a2 a3 a4 a5 = none) ∧
    (∀ sh data, sh ≠ [Mc, Dm] →
      initPriors Mc Dm a1 (.array sh data) a3 a4 a5 = none) ∧
    (∀ sh data, sh ≠ [Mc] →
      initPriors Mc Dm a1 a2 (.array sh data) a4 a5 = none) ∧
    (∀ sh data, sh ≠ [Mc] →
      initPriors Mc Dm a1 a2 a3 (.array sh data) a5 = none) ∧
    (∀ sh data, sh ≠ [Mc, Dm] →
      initPriors Mc Dm a1 a2 a3 a4 (.array sh data) = none) ∧
    (∀ v1 v2 v3 v4 v5 : ℝ,
      initPriors Mc Dm (.scalar v1) (.scalar v2) (.scalar v3) (.scalar v4) (.scalar v5) =
        some ⟨fun _ => v1, fun _ _ => v2, fun _ => v3, fun _ => v4, fun _ _ => v5⟩) := by
  refine ⟨?_, ?_, ?_, ?_, ?_, fun v1 v2 v3 v4 v5 => rfl⟩
  · intro sh data h
    simp [initPriors, expandVec, h]
  · intro sh data h
    cases h1 : expandVec Mc a1 <;> simp [initPriors, expandMat, h, h1]
  · intro sh data h
    cases h1 : expandVec Mc a1 <;> cases h2 : expandMat Mc Dm a2 <;>
      simp [initPriors, expandVec, h, h1, h2]
  · intro sh data h
    cases h1 : expandVec Mc a1 <;> cases h2 : expandMat Mc Dm a2 <;>
      cases h3 : expandVec Mc a3 <;> simp [initPriors, expandVec, h, h1, h2, h3]
  · intro sh data h
    cases h1 : expandVec Mc a1 <;> cases h2 : expandMat Mc Dm a2 <;>
      cases h3 : expandVec Mc a3 <;> cases h4 : expandVec Mc a4 <;>
        simp [initPriors, expandMat, h, h1, h2, h3, h4]

/-- Witness for C9: a wrong-shape array in the first position aborts
construction, and all-scalar arguments construct successfully. -/
theorem gmm_constructor_shape_check_witness :
    initPriors 2 3 (.array [3] []) (.scalar 0) (.scalar 1) (.scalar 1) (.scalar 1) = none ∧
    (initPriors 2 3 (.scalar 1) (.scalar 0) (.scalar 1) (.scalar 1)
      (.scalar 1)).isSome = true :=
  ⟨(gmm_constructor_shape_check 2 3 (.scalar 0) (.scalar 0) (.scalar 1) (.scalar 1)
      (.scalar 1)).1 [3] [] (by decide),
   by rw [(gmm_constructor_shape_check 2 3 (.scalar 1) (.scalar 0) (.scalar 1) (.scalar 1)
      (.scalar 1)).2.2.2.2.2 1 0 1 1 1]; rfl⟩

end GMMDiagHMM
